import Mathlib

/-!
Verification of the CUDA memory layer (`cuda_memory.cc`): device buffers,
IPC memory handles, and the buffered `CudaBufferWriter`.

Device and pinned-host memory are modelled as total functions `Int → Nat`
(one byte value per address, addresses relative to the corresponding base
pointer, mirroring the C++ pointer arithmetic which performs no bounds
checks on writer transfers).  Each mutating operation returns a status, the
post-state, and the list of host→device transfers it issued, mirroring the
driver calls made by the C++ code.
-/

/-- A single-byte store: `setByte m a b` is `m` with address `a` holding `b`. -/
def setByte (m : Int → Nat) (a : Int) (b : Nat) : Int → Nat :=
  fun x => if x = a then b else m x

/-- `memcpy` into byte-addressed memory: write the bytes of `l` at
consecutive addresses starting at `a`. -/
def writeBytes (m : Int → Nat) (a : Int) : List Nat → (Int → Nat)
  | [] => m
  | b :: bs => writeBytes (setByte m a b) (a + 1) bs

/-- Read `n` consecutive bytes starting at address `a`. -/
def hostRead (m : Int → Nat) (a : Int) (n : Nat) : List Nat :=
  (List.range n).map (fun (i : Nat) => m (a + (i : Int)))

/-!
## Status values

`arrow::Status` outcomes used by this translation unit.
-/

/-- Outcome of an operation, mirroring `arrow::Status`. -/
inductive Status
  | ok
  | ioError (msg : String)
  | invalid (msg : String)
  | driverError
deriving DecidableEq

/-!
## CUDA IPC memory handle (`CudaIpcMemHandle`)

The driver token `CUipcMemHandle` is an opaque fixed-width byte blob
(`CU_IPC_HANDLE_SIZE = 64` bytes); the handle is modelled as the list of
its bytes.  Both `FromBuffer` and the impl constructor `memcpy` exactly
`sizeof(CUipcMemHandle)` bytes from the input, and `Serialize` `memcpy`s
the token into a freshly allocated buffer of exactly that width.
-/

/-- `sizeof(CUipcMemHandle)`. -/
def kHandleSize : Nat := 64

/-- `CudaIpcMemHandle::FromBuffer` / the impl constructor: read exactly
`kHandleSize` bytes from the caller-provided memory (modelled as a byte
list read with `getD`, matching an unchecked `memcpy`). -/
def CudaIpcMemHandle.fromBuffer (raw : List Nat) : List Nat :=
  (List.range kHandleSize).map (fun i => raw.getD i 0)

/-- `CudaIpcMemHandle::Serialize`: allocate a buffer of exactly
`kHandleSize` bytes and `memcpy` the token into it. -/
def CudaIpcMemHandle.serialize (h : List Nat) : List Nat :=
  (List.range kHandleSize).map (fun i => h.getD i 0)

/-!
## `CudaBuffer`

State: device base address, size, the `own_data_` and `is_ipc_` flags.
`Close` is modelled by the release action it performs.
-/

/-- The fields of a `CudaBuffer` relevant to ownership and release. -/
structure CudaBufState where
  addr : Int
  size : Int
  own_data : Bool
  is_ipc : Bool
deriving DecidableEq

/-- What `CudaBuffer::Close` does to the underlying allocation. -/
inductive CloseAction
  | noRelease
  | closeIpcMapping (addr : Int)
  | freeDevice (addr : Int) (size : Int)
deriving DecidableEq

/-- `CudaBuffer::Close`: dispatch on `own_data_` and `is_ipc_`. -/
def CudaBufState.close (b : CudaBufState) : CloseAction :=
  if b.own_data then
    if b.is_ipc then .closeIpcMapping b.addr
    else .freeDevice b.addr b.size
  else .noRelease

/-- The slice constructor `CudaBuffer(parent, offset, size)`: shares the
parent's memory, `own_data_ = false`, `is_ipc_ = false`. -/
def CudaBufState.slice (parent : CudaBufState) (offset size : Int) : CudaBufState :=
  { addr := parent.addr + offset, size := size, own_data := false, is_ipc := false }

/-- `CudaBuffer::ExportForIpc`.  `driverOk` models whether the context's
`ExportIpcBuffer` driver call succeeds.  Returns the status together with
the post-state of the buffer (the C++ method mutates in place). -/
def CudaBufState.exportForIpc (b : CudaBufState) (driverOk : Bool) :
    Status × CudaBufState :=
  if b.is_ipc then (.invalid "Buffer has already been exported for IPC", b)
  else if driverOk then (.ok, { b with own_data := false })
  else (.driverError, b)

/-- `CudaBuffer::CopyFromHost`: `DCHECK_LE(nbytes, size_ - position)`
(a fatal assertion, modelled as `none`), then a host→device copy of the
`data` bytes at device offset `position`. -/
def CudaBufState.copyFromHost (b : CudaBufState) (dev : Int → Nat)
    (position : Int) (data : List Nat) : Option (Int → Nat) :=
  if (data.length : Int) ≤ b.size - position then
    some (writeBytes dev (b.addr + position) data)
  else none

/-!
## `CudaBufferWriter` / `CudaBufferWriterImpl`

Writer state: the target device memory (addresses relative to
`mutable_data_`), the buffer size `size_`, the cursor `position_`, the
staging configuration `buffer_size_` / `buffer_position_`, and the pinned
host staging memory `host_buffer_data_`.

Every mutating operation returns `Status × WriterState × List Transfer`,
where the trace lists the `CopyHostToDevice` calls issued (destination
device offset and the bytes copied).  Driver copies are modelled as
always succeeding, matching the claims under scrutiny, which do not
concern driver failures.
-/

/-- One `CopyHostToDevice` call: destination offset (relative to
`mutable_data_`) and the bytes transferred. -/
structure Transfer where
  dst : Int
  bytes : List Nat
deriving DecidableEq

/-- The state of a `CudaBufferWriterImpl`. -/
structure WriterState where
  dev : Int → Nat
  size : Int
  pos : Int
  bufSize : Int
  bufPos : Int
  host : Int → Nat

/-- The impl constructor: cursor at 0, no staging buffer configured
(`buffer_size_ = 0`, `buffer_position_ = 0`); `host` models the (not yet
allocated, arbitrary) pinned staging memory. -/
def WriterState.init (dev : Int → Nat) (size : Int) (host : Int → Nat) : WriterState :=
  { dev := dev, size := size, pos := 0, bufSize := 0, bufPos := 0, host := host }

/-- `CudaBufferWriterImpl::Seek`: bounds-check `position` against
`[0, size_)`, then move the cursor.  Does not flush. -/
def WriterState.implSeek (st : WriterState) (position : Int) : Status × WriterState :=
  if position < 0 ∨ position ≥ st.size then (.ioError "position out of bounds", st)
  else (.ok, { st with pos := position })

/-- `CudaBufferWriterImpl::Flush`: when a staging buffer is configured and
bytes are staged, copy the `buffer_position_` staged bytes to the device
at `position_ - buffer_position_` and reset `buffer_position_` to 0. -/
def WriterState.flush (st : WriterState) : Status × WriterState × List Transfer :=
  if st.bufSize > 0 ∧ st.bufPos > 0 then
    let staged := hostRead st.host 0 st.bufPos.toNat
    (.ok, { st with dev := writeBytes st.dev (st.pos - st.bufPos) staged, bufPos := 0 },
      [{ dst := st.pos - st.bufPos, bytes := staged }])
  else (.ok, st, [])

/-- `CudaBufferWriterImpl::Write`: no-op on 0 bytes; in buffered mode
either flush-then-direct-copy (when `nbytes + buffer_position_ >=
buffer_size_`) or append to the staging area; in unbuffered mode a direct
copy.  Always advances `position_` by `nbytes` afterwards. -/
def WriterState.write (st : WriterState) (data : List Nat) :
    Status × WriterState × List Transfer :=
  let n : Int := data.length
  if n = 0 then (.ok, st, [])
  else if st.bufSize > 0 then
    if n + st.bufPos ≥ st.bufSize then
      let r := st.flush
      let st1 := r.2.1
      (.ok, { st1 with dev := writeBytes st1.dev st1.pos data, pos := st1.pos + n },
        r.2.2 ++ [{ dst := st1.pos, bytes := data }])
    else
      (.ok, { st with host := writeBytes st.host st.bufPos data,
                      bufPos := st.bufPos + n, pos := st.pos + n }, [])
  else
    (.ok, { st with dev := writeBytes st.dev st.pos data, pos := st.pos + n },
      [{ dst := st.pos, bytes := data }])

/-- `CudaBufferWriterImpl::WriteAt`: under the instance lock, the *impl*
`Seek` (which does not flush) followed by `Write`. -/
def WriterState.writeAt (st : WriterState) (position : Int) (data : List Nat) :
    Status × WriterState × List Transfer :=
  let s := st.implSeek position
  match s.1 with
  | .ok => s.2.write data
  | e => (e, s.2, [])

/-- Public `CudaBufferWriter::Seek`: flush first when bytes are staged,
then delegate to the impl `Seek`. -/
def WriterState.seek (st : WriterState) (position : Int) :
    Status × WriterState × List Transfer :=
  let r := if st.bufPos > 0 then st.flush else (.ok, st, [])
  let s := r.2.1.implSeek position
  (s.1, s.2, r.2.2)

/-- `CudaBufferWriterImpl::SetBufferSize`: flush any staged bytes, then
install a freshly allocated pinned host buffer (`fresh` models its
contents) and record the new `buffer_size_`. -/
def WriterState.setBufferSize (st : WriterState) (newSize : Int) (fresh : Int → Nat) :
    Status × WriterState × List Transfer :=
  let r := if st.bufPos > 0 then st.flush else (.ok, st, [])
  (.ok, { r.2.1 with bufSize := newSize, host := fresh }, r.2.2)

/-- `CudaBufferWriter::Close`: just `Flush`. -/
def WriterState.closeWriter (st : WriterState) : Status × WriterState × List Transfer :=
  st.flush

/-- Run a sequence of `Write` calls (states only). -/
def runWrites (st : WriterState) (ws : List (List Nat)) : WriterState :=
  ws.foldl (fun s d => (s.write d).2.1) st

/-- Reachable-state invariant of the writer staging fields: the staged
count is non-negative, and staged bytes exist only below a positive
configured capacity. -/
def WriterState.winv (st : WriterState) : Prop :=
  0 ≤ st.bufPos ∧ (0 < st.bufPos → st.bufPos < st.bufSize)

instance (st : WriterState) : Decidable st.winv := by
  unfold WriterState.winv
  infer_instance

/-!
## Derived programs and invariants used by the verification
-/

/-- The two-call program the spec's `WriteAt` is compared against: the
public `Seek(position)` followed by `Write(data, n)`, threading state and
concatenating the transfer traces, stopping if the seek fails. -/
def seekThenWrite (st : WriterState) (position : Int) (data : List Nat) :
    Status × WriterState × List Transfer :=
  let r := st.seek position
  match r.1 with
  | .ok =>
    let w := r.2.1.write data
    (w.1, w.2.1, r.2.2 ++ w.2.2)
  | e => (e, r.2.1, r.2.2)

/-- A concrete reachable writer state with three staged bytes `[1, 2, 3]`
(staging capacity 8, cursor 3) over a 16-byte zeroed device buffer. -/
def c1State : WriterState :=
  { dev := fun _ => 0, size := 16, pos := 3, bufSize := 8, bufPos := 3,
    host := fun i => if i = 0 then 1 else if i = 1 then 2 else if i = 2 then 3 else 0 }

/-- Abstraction relation for the buffered writer: after logically writing
`written` from offset 0, some prefix `done` of it has reached the device
and the remaining suffix `staged` sits in the pinned staging area. -/
def BufInv (C : Int) (d0 : Int → Nat) (written : List Nat) (st : WriterState) : Prop :=
  ∃ done staged, written = done ++ staged ∧
    st.dev = writeBytes d0 0 done ∧
    st.pos = (written.length : Int) ∧
    st.bufPos = (staged.length : Int) ∧
    (staged.length : Int) < st.bufSize ∧
    st.bufSize = C ∧
    hostRead st.host 0 staged.length = staged

/-!
## Byte-memory lemmas
-/

theorem hostRead_zero (m : Int → Nat) (a : Int) : hostRead m a 0 = [] := rfl

theorem hostRead_succ (m : Int → Nat) (a : Int) (n : Nat) :
    hostRead m a (n + 1) = m a :: hostRead m (a + 1) n := by
  unfold hostRead
  rw [List.range_succ_eq_map, List.map_cons, List.map_map]
  refine congrArg₂ _ (by simp) ?_
  refine List.map_congr_left ?_
  intro i _
  show m (a + ((i + 1 : Nat) : Int)) = m (a + 1 + (i : Int))
  push_cast
  ring_nf

theorem hostRead_length (m : Int → Nat) (a : Int) (n : Nat) :
    (hostRead m a n).length = n := by
  simp [hostRead]

theorem writeBytes_of_lt (l : List Nat) : ∀ (m : Int → Nat) (a x : Int),
    x < a → writeBytes m a l x = m x := by
  induction l with
  | nil => intro m a x _; rfl
  | cons b bs ih =>
    intro m a x hx
    show writeBytes (setByte m a b) (a + 1) bs x = m x
    rw [ih (setByte m a b) (a + 1) x (by omega)]
    unfold setByte
    rw [if_neg (by omega)]

theorem writeBytes_append (xs ys : List Nat) : ∀ (m : Int → Nat) (a : Int),
    writeBytes m a (xs ++ ys) = writeBytes (writeBytes m a xs) (a + xs.length) ys := by
  induction xs with
  | nil => intro m a; simp [writeBytes]
  | cons b bs ih =>
    intro m a
    show writeBytes (setByte m a b) (a + 1) (bs ++ ys) = _
    rw [ih (setByte m a b) (a + 1)]
    have : a + 1 + (bs.length : Int) = a + ((b :: bs).length : Int) := by
      simp; ring
    rw [this]
    rfl

theorem hostRead_writeBytes (l : List Nat) : ∀ (m : Int → Nat) (a : Int),
    hostRead (writeBytes m a l) a l.length = l := by
  induction l with
  | nil => intro m a; rfl
  | cons b bs ih =>
    intro m a
    rw [List.length_cons, hostRead_succ]
    refine congrArg₂ _ ?_ (ih (setByte m a b) (a + 1))
    show writeBytes (setByte m a b) (a + 1) bs a = b
    rw [writeBytes_of_lt bs (setByte m a b) (a + 1) a (by omega)]
    unfold setByte
    rw [if_pos rfl]

theorem hostRead_split (s : Nat) : ∀ (m : Int → Nat) (a : Int) (n : Nat),
    hostRead m a (s + n) = hostRead m a s ++ hostRead m (a + s) n := by
  induction s with
  | zero => intro m a n; simp [hostRead_zero]
  | succ s ih =>
    intro m a n
    have h1 : s + 1 + n = (s + n) + 1 := by omega
    rw [h1, hostRead_succ, hostRead_succ, ih m (a + 1) n, List.cons_append]
    have h2 : a + 1 + (s : Int) = a + ((s + 1 : Nat) : Int) := by push_cast; ring
    rw [h2]

theorem hostRead_writeBytes_of_le (l : List Nat) (m : Int → Nat) (a b : Int) (n : Nat)
    (h : a + (n : Int) ≤ b) : hostRead (writeBytes m b l) a n = hostRead m a n := by
  unfold hostRead
  refine List.map_congr_left ?_
  intro i hi
  have hi2 : i < n := List.mem_range.mp hi
  exact writeBytes_of_lt l m b (a + (i : Int)) (by omega)

theorem map_range_getD (l : List Nat) :
    (List.range l.length).map (fun i => l.getD i 0) = l := by
  induction l with
  | nil => rfl
  | cons a t ih =>
    rw [List.length_cons, List.range_succ_eq_map, List.map_cons, List.map_map]
    refine congrArg₂ _ rfl ?_
    calc List.map ((fun i => (a :: t).getD i 0) ∘ Nat.succ) (List.range t.length)
        = List.map (fun i => t.getD i 0) (List.range t.length) := by
          refine List.map_congr_left ?_
          intro i _
          rfl
      _ = t := ih

/-!
## Writer helper lemmas
-/

theorem flush_status (st : WriterState) : (st.flush).1 = .ok := by
  unfold WriterState.flush
  split <;> rfl

theorem flush_pos (st : WriterState) : (st.flush).2.1.pos = st.pos := by
  unfold WriterState.flush
  split <;> rfl

theorem flush_host (st : WriterState) : (st.flush).2.1.host = st.host := by
  unfold WriterState.flush
  split <;> rfl

theorem flush_size (st : WriterState) : (st.flush).2.1.size = st.size := by
  unfold WriterState.flush
  split <;> rfl

theorem flush_bufSize (st : WriterState) : (st.flush).2.1.bufSize = st.bufSize := by
  unfold WriterState.flush
  split <;> rfl

theorem flush_spec_pos (st : WriterState) (h1 : 0 < st.bufSize) (h2 : 0 < st.bufPos) :
    st.flush =
      (.ok,
       { st with dev := writeBytes st.dev (st.pos - st.bufPos)
                   (hostRead st.host 0 st.bufPos.toNat),
                 bufPos := 0 },
       [{ dst := st.pos - st.bufPos,
          bytes := hostRead st.host 0 st.bufPos.toNat }]) := by
  unfold WriterState.flush
  rw [if_pos ⟨h1, h2⟩]

theorem flush_spec_zero (st : WriterState) (h : ¬(0 < st.bufSize ∧ 0 < st.bufPos)) :
    st.flush = (.ok, st, []) := by
  unfold WriterState.flush
  rw [if_neg h]

theorem flush_bufPos (st : WriterState) (h0 : 0 ≤ st.bufPos) (hC : 0 < st.bufSize) :
    (st.flush).2.1.bufPos = 0 := by
  by_cases h : 0 < st.bufPos
  · rw [flush_spec_pos st hC h]
  · rw [flush_spec_zero st (by tauto)]
    show st.bufPos = 0
    omega

/-!
## C6: `CudaBuffer::Close` ownership dispatch
-/

/-- C6.  `CudaBuffer::Close` dispatches on the ownership flags: a slice is
constructed non-owning and its close releases nothing; a non-owning buffer
releases nothing; an owning non-IPC buffer asks the context to free the
allocation with exactly the recorded address and size; an owning
IPC-imported buffer only closes the local mapping, never a device free. -/
theorem c6_close_dispatch (b parent : CudaBufState) (offset sz : Int) :
    (parent.slice offset sz).close = .noRelease ∧
    (b.own_data = false → b.close = .noRelease) ∧
    (b.own_data = true → b.is_ipc = false → b.close = .freeDevice b.addr b.size) ∧
    (b.own_data = true → b.is_ipc = true → b.close = .closeIpcMapping b.addr) := by
  refine ⟨rfl, ?_, ?_, ?_⟩
  · intro h; simp [CudaBufState.close, h]
  · intro h1 h2; simp [CudaBufState.close, h1, h2]
  · intro h1 h2; simp [CudaBufState.close, h1, h2]

/-- Witness for C6 at concrete buffers. -/
theorem c6_close_dispatch_witness :
    (CudaBufState.slice ⟨4, 16, true, false⟩ 2 8).close = .noRelease ∧
    (⟨4, 16, true, false⟩ : CudaBufState).close = .freeDevice 4 16 ∧
    (⟨4, 16, true, true⟩ : CudaBufState).close = .closeIpcMapping 4 ∧
    (⟨4, 16, false, true⟩ : CudaBufState).close = .noRelease :=
  ⟨(c6_close_dispatch ⟨4, 16, true, false⟩ ⟨4, 16, true, false⟩ 2 8).1,
   (c6_close_dispatch ⟨4, 16, true, false⟩ ⟨4, 16, true, false⟩ 2 8).2.2.1 rfl rfl,
   (c6_close_dispatch ⟨4, 16, true, true⟩ ⟨4, 16, true, true⟩ 2 8).2.2.2 rfl rfl,
   (c6_close_dispatch ⟨4, 16, false, true⟩ ⟨4, 16, false, true⟩ 2 8).2.1 rfl⟩

/-!
## C7: IPC handle serialize / deserialize round trip
-/

/-- C7.  For a handle whose token has the driver's byte width,
`Serialize` produces a buffer of exactly that width containing the token
bytes unchanged, and `FromBuffer` on the serialized bytes recovers the
token byte-for-byte. -/
theorem c7_serialize_roundtrip (h : List Nat) (hlen : h.length = kHandleSize) :
    (CudaIpcMemHandle.serialize h).length = kHandleSize ∧
    CudaIpcMemHandle.serialize h = h ∧
    CudaIpcMemHandle.fromBuffer (CudaIpcMemHandle.serialize h) = h := by
  have hs : CudaIpcMemHandle.serialize h = h := by
    unfold CudaIpcMemHandle.serialize
    rw [← hlen]
    exact map_range_getD h
  refine ⟨by rw [hs, hlen], hs, ?_⟩
  rw [hs]
  unfold CudaIpcMemHandle.fromBuffer
  rw [← hlen]
  exact map_range_getD h

/-- Witness for C7 on a concrete 64-byte token. -/
theorem c7_serialize_roundtrip_witness :
    (List.replicate 64 7 : List Nat).length = kHandleSize ∧
    CudaIpcMemHandle.fromBuffer
      (CudaIpcMemHandle.serialize (List.replicate 64 7)) = List.replicate 64 7 :=
  ⟨by decide, (c7_serialize_roundtrip (List.replicate 64 7) (by decide)).2.2⟩

/-!
## C8 and C2: `CudaBuffer::ExportForIpc`
-/

/-- C8.  A successful `ExportForIpc` clears `own_data_`, so a subsequent
`Close` on the buffer releases nothing; when `ExportForIpc` fails (either
because `is_ipc_` is set or because the driver export fails) the buffer
state, in particular the ownership flag, is unchanged. -/
theorem c8_export_clears_ownership (b : CudaBufState) (driverOk : Bool) :
    ((b.exportForIpc driverOk).1 = .ok →
      (b.exportForIpc driverOk).2.own_data = false ∧
      (b.exportForIpc driverOk).2.close = .noRelease) ∧
    ((b.exportForIpc driverOk).1 ≠ .ok → (b.exportForIpc driverOk).2 = b) := by
  unfold CudaBufState.exportForIpc
  by_cases hipc : b.is_ipc = true
  · simp [hipc]
  · cases driverOk
    · simp [hipc]
    · simp [hipc, CudaBufState.close]

/-- Witness for C8 on a concrete owning, non-IPC buffer. -/
theorem c8_export_clears_ownership_witness :
    ((⟨0, 8, true, false⟩ : CudaBufState).exportForIpc true).2.own_data = false ∧
    ((⟨0, 8, true, false⟩ : CudaBufState).exportForIpc true).2.close = .noRelease :=
  (c8_export_clears_ownership ⟨0, 8, true, false⟩ true).1 (by decide)

/-- Counterexample to C2 as stated: an owning non-IPC buffer is exported
successfully, and a second `ExportForIpc` on the resulting buffer again
returns OK — not the "already exported" invalid error the claim
requires. -/
theorem c2_counterexample :
    ((⟨0, 8, true, false⟩ : CudaBufState).exportForIpc true).1 = .ok ∧
    ((((⟨0, 8, true, false⟩ : CudaBufState).exportForIpc true).2).exportForIpc true).1
      = .ok ∧
    ¬((((⟨0, 8, true, false⟩ : CudaBufState).exportForIpc true).2).exportForIpc true).1
      = .invalid "Buffer has already been exported for IPC" := by
  decide

/-- C2 (amended).  `ExportForIpc` returns the "already exported" invalid
error exactly when the buffer's `is_ipc_` flag is set (which happens only
at construction, for IPC-imported buffers); a successful export leaves
`is_ipc_` unchanged, so a second export after a successful first export
succeeds again instead of returning the error. -/
theorem c2_export_invalid_iff_is_ipc (b : CudaBufState) (driverOk : Bool) :
    ((b.exportForIpc driverOk).1 = .invalid "Buffer has already been exported for IPC"
      ↔ b.is_ipc = true) ∧
    ((b.exportForIpc driverOk).1 = .ok →
      (b.exportForIpc driverOk).2.is_ipc = b.is_ipc ∧
      ((b.exportForIpc driverOk).2.exportForIpc driverOk).1 = .ok) := by
  unfold CudaBufState.exportForIpc
  by_cases hipc : b.is_ipc = true
  · simp [hipc]
  · cases driverOk
    · simp [hipc]
    · simp [hipc]

/-- Witness for C2's amended theorem on a concrete buffer. -/
theorem c2_export_invalid_iff_is_ipc_witness :
    (((⟨0, 8, true, false⟩ : CudaBufState).exportForIpc true).2.exportForIpc true).1
      = .ok :=
  ((c2_export_invalid_iff_is_ipc ⟨0, 8, true, false⟩ true).2 (by decide)).2

/-!
## C9: `CudaBuffer::CopyFromHost` precondition
-/

/-- C9.  `CopyFromHost` has precondition `offset + length ≤ size`;
under it the `DCHECK` assertion never fires and exactly the `data` bytes
are copied at the given device offset (no recoverable error is produced);
violating it trips the fatal assertion. -/
theorem c9_copyFromHost_precondition (b : CudaBufState) (dev : Int → Nat)
    (position : Int) (data : List Nat) :
    (position + (data.length : Int) ≤ b.size →
      b.copyFromHost dev position data
        = some (writeBytes dev (b.addr + position) data)) ∧
    (¬position + (data.length : Int) ≤ b.size →
      b.copyFromHost dev position data = none) := by
  unfold CudaBufState.copyFromHost
  constructor
  · intro h; rw [if_pos (by omega)]
  · intro h; rw [if_neg (by omega)]

/-- Witness for C9: an in-bounds copy on a concrete buffer proceeds. -/
theorem c9_copyFromHost_precondition_witness :
    (⟨0, 8, true, false⟩ : CudaBufState).copyFromHost (fun _ => 0) 2 [1, 2, 3]
      = some (writeBytes (fun _ => 0) ((0 : Int) + 2) [1, 2, 3]) :=
  (c9_copyFromHost_precondition ⟨0, 8, true, false⟩ (fun _ => 0) 2 [1, 2, 3]).1
    (by decide)

/-!
## C1: `WriteAt` versus public `Seek` followed by `Write`
-/

/-- Counterexample to C1 as stated: from the reachable state `c1State`
(three bytes `[1,2,3]` staged at cursor 3, capacity 8, 16-byte zeroed
device buffer), `WriteAt(10, [9], 1)` succeeds but leaves 4 staged bytes
and device byte 0 untouched, whereas the public `Seek(10)` followed by
`Write([9], 1)` flushes first, leaving 1 staged byte and writing device
byte 0.  `WriteAt` uses the impl seek, which does not flush. -/
theorem c1_counterexample :
    (c1State.writeAt 10 [9]).1 = .ok ∧
    (c1State.seek 10).1 = .ok ∧
    (c1State.writeAt 10 [9]).2.1.bufPos = 4 ∧
    (((c1State.seek 10).2.1).write [9]).2.1.bufPos = 1 ∧
    (c1State.writeAt 10 [9]).2.1.dev 0 = 0 ∧
    (((c1State.seek 10).2.1).write [9]).2.1.dev 0 = 1 ∧
    ¬((c1State.writeAt 10 [9]).2.1.bufPos
        = (((c1State.seek 10).2.1).write [9]).2.1.bufPos) ∧
    ¬((c1State.writeAt 10 [9]).2.1.dev 0
        = (((c1State.seek 10).2.1).write [9]).2.1.dev 0) := by
  decide

/-- C1 (amended).  `WriteAt(position, data, n)` is the *impl* seek — which
validates the position but does not flush staged bytes — followed by
`Write`; it has exactly the same effect (status, state, and issued
transfers) as the public `Seek(position)` followed by `Write(data, n)`
precisely in the states where no bytes are staged at the time of the
call. -/
theorem c1_writeAt_eq_seekThenWrite_of_no_staged (st : WriterState) (position : Int)
    (data : List Nat) (h : st.bufPos = 0) :
    st.writeAt position data = seekThenWrite st position data := by
  have hb : ¬st.bufPos > 0 := by omega
  by_cases hp : position < 0 ∨ position ≥ st.size
  · simp [WriterState.writeAt, seekThenWrite, WriterState.seek, WriterState.implSeek,
      hb, hp]
  · simp [WriterState.writeAt, seekThenWrite, WriterState.seek, WriterState.implSeek,
      hb, hp]

/-- Witness for C1's amended theorem on a concrete fresh writer. -/
theorem c1_writeAt_eq_seekThenWrite_witness :
    (WriterState.init (fun _ => 0) 8 (fun _ => 0)).writeAt 2 [5]
      = seekThenWrite (WriterState.init (fun _ => 0) 8 (fun _ => 0)) 2 [5] :=
  c1_writeAt_eq_seekThenWrite_of_no_staged
    (WriterState.init (fun _ => 0) 8 (fun _ => 0)) 2 [5] rfl

/-!
## C4: the two branches of the buffered `Write`
-/

/-- C4.  In buffered mode (`buffer_size_ > 0`) a non-empty `Write` of `n`
bytes with `n + stagedBytes ≥ capacity` first performs the flush of the
previously staged bytes (a single transfer of those bytes at
`position - stagedBytes` when any are staged) and then one direct
transfer of all `n` new bytes at the cursor, never splitting them,
leaving the staging area empty; with `n + stagedBytes < capacity` it
appends the bytes at staging offset `stagedBytes` and issues no
transfer.  Both branches advance the cursor by exactly `n`. -/
theorem c4_write_branches (st : WriterState) (data : List Nat)
    (hC : 0 < st.bufSize) (hs : 0 ≤ st.bufPos) (hn : data ≠ []) :
    ((data.length : Int) + st.bufPos ≥ st.bufSize →
      (st.write data).1 = .ok ∧
      (st.write data).2.2 = (st.flush).2.2 ++ [{ dst := st.pos, bytes := data }] ∧
      (0 < st.bufPos → (st.flush).2.2
        = [{ dst := st.pos - st.bufPos,
             bytes := hostRead st.host 0 st.bufPos.toNat }]) ∧
      (st.write data).2.1.bufPos = 0 ∧
      (st.write data).2.1.pos = st.pos + data.length ∧
      (st.write data).2.1.dev = writeBytes ((st.flush).2.1.dev) st.pos data ∧
      (st.write data).2.1.host = st.host) ∧
    ((data.length : Int) + st.bufPos < st.bufSize →
      (st.write data).1 = .ok ∧
      (st.write data).2.2 = [] ∧
      (st.write data).2.1.bufPos = st.bufPos + data.length ∧
      (st.write data).2.1.pos = st.pos + data.length ∧
      (st.write data).2.1.host = writeBytes st.host st.bufPos data ∧
      (st.write data).2.1.dev = st.dev) := by
  have hn0 : ¬((data.length : Int) = 0) := by
    simp [List.length_eq_zero]
    exact hn
  constructor
  · intro hge
    unfold WriterState.write
    rw [if_neg hn0, if_pos hC, if_pos hge]
    refine ⟨rfl, ?_, ?_, ?_, ?_, ?_, ?_⟩
    · show (st.flush).2.2 ++ [{ dst := (st.flush).2.1.pos, bytes := data }] = _
      rw [flush_pos]
    · intro hbp
      rw [flush_spec_pos st hC hbp]
    · by_cases hbp : 0 < st.bufPos
      · show (st.flush).2.1.bufPos = 0
        rw [flush_spec_pos st hC hbp]
      · show (st.flush).2.1.bufPos = 0
        rw [flush_spec_zero st (by tauto)]
        show st.bufPos = 0
        omega
    · show (st.flush).2.1.pos + (data.length : Int) = st.pos + data.length
      rw [flush_pos]
    · show writeBytes ((st.flush).2.1.dev) ((st.flush).2.1.pos) data = _
      rw [flush_pos]
    · show (st.flush).2.1.host = st.host
      rw [flush_host]
  · intro hlt
    unfold WriterState.write
    rw [if_neg hn0, if_pos hC, if_neg (by omega)]
    exact ⟨rfl, rfl, rfl, rfl, rfl, rfl⟩

/-!
## More writer characterization lemmas
-/

theorem implSeek_err (st : WriterState) (p : Int) (h : p < 0 ∨ p ≥ st.size) :
    st.implSeek p = (.ioError "position out of bounds", st) := by
  unfold WriterState.implSeek
  rw [if_pos h]

theorem implSeek_ok (st : WriterState) (p : Int) (h : ¬(p < 0 ∨ p ≥ st.size)) :
    st.implSeek p = (.ok, { st with pos := p }) := by
  unfold WriterState.implSeek
  rw [if_neg h]

theorem writeAt_eq (st : WriterState) (p : Int) (data : List Nat) :
    st.writeAt p data =
      if p < 0 ∨ p ≥ st.size then (.ioError "position out of bounds", st, [])
      else ({ st with pos := p }).write data := by
  by_cases hp : p < 0 ∨ p ≥ st.size
  · simp [WriterState.writeAt, WriterState.implSeek, hp]
  · simp [WriterState.writeAt, WriterState.implSeek, hp]

theorem winv_bounds (st : WriterState) (h : st.winv) (hC : 0 < st.bufSize) :
    0 ≤ st.bufPos ∧ st.bufPos < st.bufSize := by
  unfold WriterState.winv at h
  omega

theorem winv_flush (st : WriterState) (h : st.winv) : ((st.flush).2.1).winv := by
  by_cases hc : 0 < st.bufSize ∧ 0 < st.bufPos
  · rw [flush_spec_pos st hc.1 hc.2]
    exact ⟨le_rfl, fun hlt => absurd hlt (lt_irrefl 0)⟩
  · rw [flush_spec_zero st hc]
    exact h

theorem winv_write (st : WriterState) (data : List Nat) (h : st.winv) :
    ((st.write data).2.1).winv := by
  by_cases h0 : (data.length : Int) = 0
  · unfold WriterState.write
    rw [if_pos h0]
    exact h
  · by_cases hC : st.bufSize > 0
    · by_cases hge : (data.length : Int) + st.bufPos ≥ st.bufSize
      · unfold WriterState.write
        rw [if_neg h0, if_pos hC, if_pos hge]
        have h1 : (st.flush).2.1.bufPos = 0 := flush_bufPos st h.1 hC
        show (0 : Int) ≤ (st.flush).2.1.bufPos ∧ _
        rw [h1]
        exact ⟨le_rfl, fun hlt => absurd hlt (lt_irrefl 0)⟩
      · unfold WriterState.write
        rw [if_neg h0, if_pos hC, if_neg hge]
        have hn : 0 ≤ (data.length : Int) := Int.natCast_nonneg _
        have h1 := h.1
        show (0 : Int) ≤ st.bufPos + (data.length : Int) ∧
          (0 < st.bufPos + (data.length : Int) →
            st.bufPos + (data.length : Int) < st.bufSize)
        exact ⟨by omega, fun _ => by omega⟩
    · unfold WriterState.write
      rw [if_neg h0, if_neg hC]
      exact h

theorem winv_implSeek (st : WriterState) (p : Int) (h : st.winv) :
    ((st.implSeek p).2).winv := by
  unfold WriterState.implSeek
  split
  · exact h
  · exact h

theorem winv_seek (st : WriterState) (p : Int) (h : st.winv) :
    ((st.seek p).2.1).winv := by
  unfold WriterState.seek
  by_cases hbp : st.bufPos > 0
  · rw [if_pos hbp]
    exact winv_implSeek _ p (winv_flush st h)
  · rw [if_neg hbp]
    exact winv_implSeek _ p h

theorem winv_writeAt (st : WriterState) (p : Int) (data : List Nat) (h : st.winv) :
    ((st.writeAt p data).2.1).winv := by
  rw [writeAt_eq]
  split
  · exact h
  · exact winv_write _ data h

theorem winv_setBufferSize (st : WriterState) (n : Int) (fresh : Int → Nat)
    (h : st.winv) : ((st.setBufferSize n fresh).2.1).winv := by
  unfold WriterState.setBufferSize
  by_cases hbp : st.bufPos > 0
  · rw [if_pos hbp]
    have hC : 0 < st.bufSize := by have := h.2 hbp; omega
    have h1 : (st.flush).2.1.bufPos = 0 := flush_bufPos st h.1 hC
    show (0 : Int) ≤ (st.flush).2.1.bufPos ∧ _
    rw [h1]
    exact ⟨le_rfl, fun hlt => absurd hlt (lt_irrefl 0)⟩
  · rw [if_neg hbp]
    exact ⟨h.1, fun hlt => absurd hlt hbp⟩

/-!
## C5: public `Seek` flushes, then validates
-/

/-- C5.  On any reachable writer state, the public `Seek(p)` first
flushes: afterwards no bytes are staged, the device holds the previously
staged bytes committed at the pre-seek position `position - stagedBytes`
(so reading that range back yields exactly the staged bytes), and only
then is `p` validated — a target outside `[0, size)` returns the
"position out of bounds" IO error and leaves the cursor where it was,
while an in-range target returns OK and sets the cursor to `p`. -/
theorem c5_seek_flushes_then_validates (st : WriterState) (p : Int) (hinv : st.winv) :
    (st.seek p).2.1.bufPos = 0 ∧
    (st.seek p).2.1.dev = (st.flush).2.1.dev ∧
    (0 < st.bufPos →
      (st.seek p).2.1.dev
        = writeBytes st.dev (st.pos - st.bufPos) (hostRead st.host 0 st.bufPos.toNat) ∧
      hostRead ((st.seek p).2.1.dev) (st.pos - st.bufPos) st.bufPos.toNat
        = hostRead st.host 0 st.bufPos.toNat) ∧
    ((p < 0 ∨ p ≥ st.size) →
      (st.seek p).1 = .ioError "position out of bounds" ∧
      (st.seek p).2.1.pos = st.pos) ∧
    (¬(p < 0 ∨ p ≥ st.size) → (st.seek p).1 = .ok ∧ (st.seek p).2.1.pos = p) := by
  obtain ⟨h0, hlt⟩ := hinv
  by_cases hbp : st.bufPos > 0
  · have hC : 0 < st.bufSize := by have := hlt hbp; omega
    have e : st.seek p
        = ((((st.flush).2.1).implSeek p).1, (((st.flush).2.1).implSeek p).2,
           (st.flush).2.2) := by
      unfold WriterState.seek
      rw [if_pos hbp]
    have hreadAux : ∀ l : List Nat, l.length = st.bufPos.toNat →
        hostRead (writeBytes st.dev (st.pos - st.bufPos) l)
          (st.pos - st.bufPos) st.bufPos.toNat = l := by
      intro l hl
      rw [← hl]
      exact hostRead_writeBytes l st.dev (st.pos - st.bufPos)
    have hread := hreadAux (hostRead st.host 0 st.bufPos.toNat)
      (hostRead_length st.host 0 st.bufPos.toNat)
    rw [e, flush_spec_pos st hC hbp]
    by_cases hp : p < 0 ∨ p ≥ st.size
    · rw [implSeek_err _ p (by exact hp)]
      exact ⟨rfl, rfl, fun _ => ⟨rfl, hread⟩, fun _ => ⟨rfl, rfl⟩, fun hc => absurd hp hc⟩
    · rw [implSeek_ok _ p (by exact hp)]
      exact ⟨rfl, rfl, fun _ => ⟨rfl, hread⟩, fun hc => absurd hc hp, fun _ => ⟨rfl, rfl⟩⟩
  · have hz : st.bufPos = 0 := by omega
    have e : st.seek p = ((st.implSeek p).1, (st.implSeek p).2, []) := by
      unfold WriterState.seek
      rw [if_neg hbp]
    have ef : (st.flush).2.1 = st := by rw [flush_spec_zero st (by tauto)]
    rw [e, ef]
    by_cases hp : p < 0 ∨ p ≥ st.size
    · rw [implSeek_err _ p hp]
      exact ⟨hz, rfl, fun hc => absurd hc hbp, fun _ => ⟨rfl, rfl⟩, fun hc => absurd hp hc⟩
    · rw [implSeek_ok _ p hp]
      exact ⟨hz, rfl, fun hc => absurd hc hbp, fun hc => absurd hc hp, fun _ => ⟨rfl, rfl⟩⟩

/-- Witness for C5 on `c1State` (3 staged bytes) with the in-range target 10. -/
theorem c5_seek_flushes_then_validates_witness :
    (c1State.seek 10).2.1.bufPos = 0 ∧
    (c1State.seek 10).1 = .ok ∧ (c1State.seek 10).2.1.pos = 10 :=
  ⟨(c5_seek_flushes_then_validates c1State 10 (by decide)).1,
   (c5_seek_flushes_then_validates c1State 10 (by decide)).2.2.2.2 (by decide)⟩

/-!
## C10: the staging-fill invariant
-/

/-- C10.  The staging invariant `0 ≤ stagedBytes` and
`stagedBytes < capacity` whenever a staging capacity is configured (the
formulation `winv`) holds in the initial writer state and is preserved by
`Write`, `Flush`, `Seek`, `WriteAt`, `SetBufferSize` and `Close`; under a
configured capacity `0 < buffer_size_` it yields `0 ≤ buffer_position_ <
buffer_size_`, so a full staging buffer never persists across
operations. -/
theorem c10_staging_invariant (st : WriterState) (hinv : st.winv) :
    (0 < st.bufSize → 0 ≤ st.bufPos ∧ st.bufPos < st.bufSize) ∧
    (∀ data, ((st.write data).2.1).winv) ∧
    ((st.flush).2.1).winv ∧
    (∀ p, ((st.seek p).2.1).winv) ∧
    (∀ p data, ((st.writeAt p data).2.1).winv) ∧
    (∀ n fresh, ((st.setBufferSize n fresh).2.1).winv) ∧
    ((st.closeWriter).2.1).winv ∧
    (∀ d s hm, (WriterState.init d s hm).winv) :=
  ⟨winv_bounds st hinv,
   fun data => winv_write st data hinv,
   winv_flush st hinv,
   fun p => winv_seek st p hinv,
   fun p data => winv_writeAt st p data hinv,
   fun n fresh => winv_setBufferSize st n fresh hinv,
   winv_flush st hinv,
   fun _ _ _ => ⟨le_rfl, fun hlt => absurd hlt (lt_irrefl 0)⟩⟩

/-- Witness for C10 on a concrete state with 3 staged bytes and capacity 8. -/
theorem c10_staging_invariant_witness :
    ((WriterState.mk (fun _ => 0) 8 3 8 3 (fun _ => 0)).write [7]).2.1.winv ∧
    ((WriterState.mk (fun _ => 0) 8 3 8 3 (fun _ => 0)).seek 1).2.1.winv :=
  ⟨(c10_staging_invariant (WriterState.mk (fun _ => 0) 8 3 8 3 (fun _ => 0))
      (by decide)).2.1 [7],
   (c10_staging_invariant (WriterState.mk (fun _ => 0) 8 3 8 3 (fun _ => 0))
      (by decide)).2.2.2.1 1⟩

/-- Witness for C4: on a fresh writer with capacity 2, writing `[1, 2]`
takes the flush-then-direct branch and issues the direct transfer. -/
theorem c4_write_branches_witness :
    ((WriterState.mk (fun _ => 0) 8 0 2 0 (fun _ => 0)).write [1, 2]).2.2
      = ((WriterState.mk (fun _ => 0) 8 0 2 0 (fun _ => 0)).flush).2.2
        ++ [{ dst := 0, bytes := [1, 2] }] ∧
    ((WriterState.mk (fun _ => 0) 8 0 2 0 (fun _ => 0)).write [1, 2]).2.1.pos = 2 :=
  ⟨((c4_write_branches (WriterState.mk (fun _ => 0) 8 0 2 0 (fun _ => 0)) [1, 2]
      (by decide) (by decide) (by decide)).1 (by decide)).2.1,
   ((c4_write_branches (WriterState.mk (fun _ => 0) 8 0 2 0 (fun _ => 0)) [1, 2]
      (by decide) (by decide) (by decide)).1 (by decide)).2.2.2.2.1⟩

/-!
## C3: buffering is semantically transparent
-/

theorem runWrites_cons (st : WriterState) (d : List Nat) (ws : List (List Nat)) :
    runWrites st (d :: ws) = runWrites ((st.write d).2.1) ws := rfl

theorem write_nil_state (st : WriterState) : (st.write []).2.1 = st := rfl

theorem write_unbuffered (st : WriterState) (h : st.bufSize = 0) (data : List Nat)
    (hd : data ≠ []) :
    st.write data
      = (.ok, { st with dev := writeBytes st.dev st.pos data,
                        pos := st.pos + data.length },
         [{ dst := st.pos, bytes := data }]) := by
  have h0 : ¬((data.length : Int) = 0) := by
    simp [List.length_eq_zero]
    exact hd
  unfold WriterState.write
  rw [if_neg h0, if_neg (by omega)]

theorem write_unbuffered_state (st : WriterState) (h : st.bufSize = 0) (data : List Nat)
    (hd : data ≠ []) :
    (st.write data).2.1
      = { st with dev := writeBytes st.dev st.pos data, pos := st.pos + data.length } := by
  rw [write_unbuffered st h data hd]

theorem unbuffered_run (ws : List (List Nat)) :
    ∀ (d0 h0 : Int → Nat) (size : Int) (done : List Nat),
      runWrites { dev := writeBytes d0 0 done, size := size, pos := (done.length : Int),
                  bufSize := 0, bufPos := 0, host := h0 } ws
      = { dev := writeBytes d0 0 (done ++ ws.join), size := size,
          pos := ((done ++ ws.join).length : Int), bufSize := 0, bufPos := 0,
          host := h0 } := by
  induction ws with
  | nil =>
    intro d0 h0 size done
    simp [runWrites]
  | cons d ws ih =>
    intro d0 h0 size done
    rw [runWrites_cons]
    by_cases hd : d = []
    · subst hd
      rw [write_nil_state, ih d0 h0 size done]
      simp
    · rw [write_unbuffered_state _ rfl d hd]
      have e1 : writeBytes (writeBytes d0 0 done) ((done.length : Nat) : Int) d
          = writeBytes d0 0 (done ++ d) := by
        rw [writeBytes_append]
        norm_num
      have e2 : ((done.length : Nat) : Int) + ((d.length : Nat) : Int)
          = (((done ++ d).length : Nat) : Int) := by
        simp [List.length_append]
      show runWrites { dev := writeBytes (writeBytes d0 0 done) ((done.length : Nat) : Int) d,
                       size := size,
                       pos := ((done.length : Nat) : Int) + ((d.length : Nat) : Int),
                       bufSize := 0, bufPos := 0, host := h0 } ws = _
      rw [e1, e2, ih d0 h0 size (done ++ d)]
      simp

theorem bufInv_flush (C : Int) (d0 : Int → Nat) (written : List Nat) (st : WriterState)
    (h : BufInv C d0 written st) :
    (st.flush).2.1.dev = writeBytes d0 0 written ∧
    (st.flush).2.1.bufPos = 0 ∧
    BufInv C d0 written ((st.flush).2.1) := by
  obtain ⟨done, staged, hw, hdev, hpos, hbp, hlt, hbs, hhost⟩ := h
  by_cases hs : staged = []
  · subst hs
    rw [List.append_nil] at hw
    have hz : st.bufPos = 0 := by rw [hbp]; rfl
    rw [flush_spec_zero st (by omega)]
    refine ⟨?_, hz, done, [], by simp [hw], hdev, hpos, hbp, hlt, hbs, hhost⟩
    rw [hdev, hw]
  · have hslen : 0 < staged.length := List.length_pos.mpr hs
    have hbp' : 0 < st.bufPos := by rw [hbp]; exact_mod_cast hslen
    have hC : 0 < st.bufSize := by omega
    have htn : st.bufPos.toNat = staged.length := by
      rw [hbp]
      exact Int.toNat_natCast _
    have hstg : hostRead st.host 0 st.bufPos.toNat = staged := by
      rw [htn]
      exact hhost
    have haddr : st.pos - st.bufPos = ((done.length : Nat) : Int) := by
      rw [hpos, hbp, hw]
      simp [List.length_append]
    have hdev2 : writeBytes st.dev (st.pos - st.bufPos) (hostRead st.host 0 st.bufPos.toNat)
        = writeBytes d0 0 written := by
      rw [hstg, haddr, hdev, hw, writeBytes_append]
      norm_num
    rw [flush_spec_pos st hC hbp']
    refine ⟨hdev2, rfl, written, [], by simp, hdev2, hpos, by simp, ?_, hbs, rfl⟩
    show ((([] : List Nat).length : Nat) : Int) < st.bufSize
    simpa using hC

theorem bufInv_write (C : Int) (d0 : Int → Nat) (written : List Nat) (st : WriterState)
    (data : List Nat) (hC : 1 ≤ C) (h : BufInv C d0 written st) :
    BufInv C d0 (written ++ data) ((st.write data).2.1) := by
  by_cases hd : data = []
  · subst hd
    rw [List.append_nil, write_nil_state]
    exact h
  · have hn0 : ¬((data.length : Int) = 0) := by
      simp [List.length_eq_zero]
      exact hd
    obtain ⟨hFdev, hFbp, hF⟩ := bufInv_flush C d0 written st h
    obtain ⟨done, staged, hw, hdev, hpos, hbp, hlt, hbs, hhost⟩ := h
    have hCpos : st.bufSize > 0 := by rw [hbs]; omega
    by_cases hge : (data.length : Int) + st.bufPos ≥ st.bufSize
    · unfold WriterState.write
      rw [if_neg hn0, if_pos hCpos, if_pos hge]
      refine ⟨written ++ data, [], by simp, ?_, ?_, ?_, ?_, ?_, rfl⟩
      · show writeBytes ((st.flush).2.1.dev) ((st.flush).2.1.pos) data
          = writeBytes d0 0 (written ++ data)
        rw [hFdev, flush_pos, hpos, writeBytes_append]
        norm_num
      · show (st.flush).2.1.pos + ((data.length : Nat) : Int)
          = (((written ++ data).length : Nat) : Int)
        rw [flush_pos, hpos]
        simp [List.length_append]
      · show (st.flush).2.1.bufPos = ((([] : List Nat).length : Nat) : Int)
        rw [hFbp]
        simp
      · show ((([] : List Nat).length : Nat) : Int) < (st.flush).2.1.bufSize
        rw [flush_bufSize, hbs]
        simpa using (by omega : (0 : Int) < C)
      · show (st.flush).2.1.bufSize = C
        rw [flush_bufSize]
        exact hbs
    · unfold WriterState.write
      rw [if_neg hn0, if_pos hCpos, if_neg (by omega)]
      refine ⟨done, staged ++ data, ?_, hdev, ?_, ?_, ?_, hbs, ?_⟩
      · rw [hw, List.append_assoc]
      · show st.pos + ((data.length : Nat) : Int) = (((written ++ data).length : Nat) : Int)
        rw [hpos]
        simp [List.length_append]
      · show st.bufPos + ((data.length : Nat) : Int)
          = (((staged ++ data).length : Nat) : Int)
        rw [hbp]
        simp [List.length_append]
      · show (((staged ++ data).length : Nat) : Int) < st.bufSize
        rw [List.length_append]
        push_cast
        omega
      · show hostRead (writeBytes st.host st.bufPos data) 0 (staged ++ data).length
          = staged ++ data
        rw [List.length_append, hostRead_split]
        refine congrArg₂ _ ?_ ?_
        · rw [hostRead_writeBytes_of_le data st.host 0 st.bufPos staged.length
            (by rw [hbp]; omega)]
          exact hhost
        · have e : (0 : Int) + ((staged.length : Nat) : Int) = st.bufPos := by
            rw [hbp]
            ring
          rw [e]
          exact hostRead_writeBytes data st.host st.bufPos

theorem bufInv_run (C : Int) (d0 : Int → Nat) (hC : 1 ≤ C) (ws : List (List Nat)) :
    ∀ (written : List Nat) (st : WriterState), BufInv C d0 written st →
      BufInv C d0 (written ++ ws.join) (runWrites st ws) := by
  induction ws with
  | nil =>
    intro written st h
    simpa using h
  | cons d ws ih =>
    intro written st h
    rw [runWrites_cons]
    have h2 := ih (written ++ d) _ (bufInv_write C d0 written st d hC h)
    simpa [List.append_assoc] using h2

/-- C3.  For any fixed sequence of `Write` calls followed by `Flush`, the
final device bytes are the same whether the writer is unbuffered (fresh
writer, no `SetBufferSize`) or configured via `SetBufferSize` with any
staging capacity of at least 1 byte: buffering never changes the
committed device contents. -/
theorem c3_buffering_equivalence (ws : List (List Nat)) (C : Int) (hC : 1 ≤ C)
    (size : Int) (d0 h0 fresh : Int → Nat) :
    ((runWrites (WriterState.init d0 size h0) ws).flush).2.1.dev
      = ((runWrites (((WriterState.init d0 size h0).setBufferSize C fresh).2.1)
          ws).flush).2.1.dev := by
  -- unbuffered side
  have e0 : WriterState.init d0 size h0
      = { dev := writeBytes d0 0 [], size := size, pos := (([] : List Nat).length : Int),
          bufSize := 0, bufPos := 0, host := h0 } := rfl
  have hu := unbuffered_run ws d0 h0 size []
  have hufl : ((runWrites (WriterState.init d0 size h0) ws).flush).2.1.dev
      = writeBytes d0 0 ws.join := by
    rw [e0, hu, flush_spec_zero _ (by simp)]
    simp
  -- buffered side
  have eb : ((WriterState.init d0 size h0).setBufferSize C fresh).2.1
      = { dev := d0, size := size, pos := 0, bufSize := C, bufPos := 0, host := fresh } := by
    unfold WriterState.setBufferSize WriterState.init
    rw [if_neg (by norm_num)]
  have hb0 : BufInv C d0 []
      ({ dev := d0, size := size, pos := 0, bufSize := C, bufPos := 0, host := fresh }) := by
    refine ⟨[], [], rfl, rfl, by simp, by simp, ?_, rfl, rfl⟩
    show ((([] : List Nat).length : Nat) : Int) < C
    simpa using (by omega : (0 : Int) < C)
  have hrun := bufInv_run C d0 hC ws [] _ hb0
  obtain ⟨hFdev, _, _⟩ := bufInv_flush C d0 ([] ++ ws.join) _ hrun
  rw [hufl, eb, hFdev]
  simp

/-- Witness for C3: two writes `[1]` and `[2, 3]` on an 8-byte buffer,
unbuffered versus staging capacity 2. -/
theorem c3_buffering_equivalence_witness :
    ((runWrites (WriterState.init (fun _ => 0) 8 (fun _ => 0)) [[1], [2, 3]]).flush).2.1.dev
      = ((runWrites (((WriterState.init (fun _ => 0) 8 (fun _ => 0)).setBufferSize 2
          (fun _ => 0)).2.1) [[1], [2, 3]]).flush).2.1.dev :=
  c3_buffering_equivalence [[1], [2, 3]] 2 (by norm_num) 8 (fun _ => 0) (fun _ => 0)
    (fun _ => 0)
